import Mathlib

/-!
Verification of the `crypto_trade` repository against its specification.

The Python sources are shallowly embedded: floats are modelled as exact
rationals (`ℚ`), machine integers as `ℕ`/`ℤ`, fallible operations as
`Option`/`Except`, and the SQLite-backed datastore as lists of row records
in id (insertion) order.  Each definition carries a comment naming the
source function it embeds.
-/

/-! ## Rational rounding helpers

Python / `decimal` rounding modes used by the sources:
* `decimal.ROUND_HALF_UP` — round to nearest, ties away from zero;
* built-in `round(x, n)` — round to nearest, ties to even (banker's);
* float `%` — `a - b * floor(a / b)` for `b ≠ 0`.
-/

/-- Round to the nearest integer, ties away from zero
(`decimal.ROUND_HALF_UP` used by `quantize` in the rounding helpers). -/
def roundHalfAway (q : ℚ) : ℤ :=
  if 0 ≤ q then ⌊q + 1/2⌋ else -⌊(-q) + 1/2⌋

/-- Round to the nearest integer, ties to even (Python built-in `round`). -/
def roundHalfEven (q : ℚ) : ℤ :=
  let f := ⌊q⌋
  let r := q - f
  if r < 1/2 then f
  else if 1/2 < r then f + 1
  else if 2 ∣ f then f else f + 1

/-- Python `round(x, n)` on an exact rational: ties-to-even at `n` decimals. -/
def roundDecHE (q : ℚ) (n : ℕ) : ℚ :=
  (roundHalfEven (q * 10 ^ n) : ℚ) / 10 ^ n

/-- Decimal `quantize` to `n` decimal places with `ROUND_HALF_UP`. -/
def quantizeHalfUp (q : ℚ) (n : ℕ) : ℚ :=
  (roundHalfAway (q * 10 ^ n) : ℚ) / 10 ^ n

/-- Python float modulo: `a % b = a - b * floor(a / b)` (for `b ≠ 0`;
the `b = 0` case raises in Python and is modelled at each use site). -/
def pyMod (a b : ℚ) : ℚ := a - b * ⌊a / b⌋

theorem roundHalfEven_intCast (k : ℤ) : roundHalfEven (k : ℚ) = k := by
  unfold roundHalfEven
  simp

theorem floor_intCast_add_half (k : ℤ) : ⌊(k : ℚ) + 1/2⌋ = k := by
  rw [add_comm, Int.floor_add_int]
  norm_num

theorem roundHalfAway_intCast (k : ℤ) : roundHalfAway (k : ℚ) = k := by
  unfold roundHalfAway
  rcases le_or_lt 0 (k : ℚ) with h | h
  · rw [if_pos h, floor_intCast_add_half]
  · rw [if_neg (not_le.mpr h),
      show (-(k : ℚ)) = ((-k : ℤ) : ℚ) by push_cast; ring,
      floor_intCast_add_half]
    ring

/-! ## Exchange WebSocket client

Model of `src/exchanges/binance/binance_futures_websocket_client.py`
(`BinanceFuturesWebSocketClient`).  Only the state relevant to the claims is
kept: the de-duplicated subscription list, the reconnect counter and the
backoff parameters.  The constructor sets `reconnect_interval = 5`,
`max_reconnect_interval = 300`, `_reconnect_count = 0`,
`_subscribed_streams = []`.
-/

structure WsClient where
  reconnect_interval : ℕ
  max_reconnect_interval : ℕ
  reconnect_count : ℕ
  subscribed_streams : List String
deriving Repr, DecidableEq

/-- State produced by `__init__`: base interval 5 s, cap 300 s, counter 0,
no subscriptions. -/
def WsClient.mk0 : WsClient :=
  { reconnect_interval := 5
    max_reconnect_interval := 300
    reconnect_count := 0
    subscribed_streams := [] }

/-- Embeds `subscribe`: `extend` the list with the new streams, then
`list(set(...))` de-duplicates.  The iteration order of a Python `set` of
strings is unspecified (hash-randomized); the model fixes the
first-occurrence order, and every theorem below depends only on membership
and multiplicity, which are order-independent. -/
def WsClient.doSubscribe (c : WsClient) (streams : List String) : WsClient :=
  { c with subscribed_streams := (c.subscribed_streams ++ streams).dedup }

/-- Embeds `unsubscribe`: for each requested stream, remove its (first)
occurrence if present. -/
def WsClient.doUnsubscribe (c : WsClient) (streams : List String) : WsClient :=
  { c with
    subscribed_streams :=
      streams.foldl
        (fun l s => if s ∈ l then l.erase s else l) c.subscribed_streams }

/-- Backoff computed inside `_reconnect`:
`min(reconnect_interval * 2 ** (count - 1), max_reconnect_interval)`,
evaluated after the counter has been incremented. -/
def WsClient.backoff (c : WsClient) : ℕ :=
  min (c.reconnect_interval * 2 ^ (c.reconnect_count - 1)) c.max_reconnect_interval

/-- One pass of the `_reconnect` loop body before the sleep: increment the
attempt counter, then compute the backoff for this attempt. -/
def WsClient.reconnectStep (c : WsClient) : WsClient × ℕ :=
  let c' := { c with reconnect_count := c.reconnect_count + 1 }
  (c', c'.backoff)

/-- Embeds the `self._reconnect_count = 0` assignment executed in `_connect`
immediately after `websockets.connect` succeeds. -/
def WsClient.onConnectSuccess (c : WsClient) : WsClient :=
  { c with reconnect_count := 0 }

/-- Backoff the default-configured client computes on attempt `n`
(counter already incremented to `n`). -/
def defaultBackoffAt (n : ℕ) : ℕ :=
  WsClient.backoff { WsClient.mk0 with reconnect_count := n }

/-- Subscription-list operations issued by callers (claim C9 ranges over
arbitrary call sequences). -/
inductive WsOp where
  | sub (streams : List String)
  | unsub (streams : List String)

/-- Apply one subscription-list operation. -/
def WsClient.applyOp (c : WsClient) : WsOp → WsClient
  | .sub streams => c.doSubscribe streams
  | .unsub streams => c.doUnsubscribe streams

/-- Apply a sequence of subscribe/unsubscribe calls to the fresh client. -/
def WsClient.applyOps (ops : List WsOp) : WsClient :=
  ops.foldl WsClient.applyOp WsClient.mk0

theorem wsFoldlErase_nodup (streams : List String) (l : List String)
    (h : l.Nodup) :
    (streams.foldl (fun l s => if s ∈ l then l.erase s else l) l).Nodup := by
  induction streams generalizing l with
  | nil => exact h
  | cons s ss ih =>
    simp only [List.foldl_cons]
    apply ih
    by_cases hs : s ∈ l
    · simp only [if_pos hs]
      exact List.Nodup.sublist (List.erase_sublist _ _) h
    · simp only [if_neg hs]
      exact h

theorem wsApplyOps_nodup (ops : List WsOp) (c : WsClient)
    (hc : c.subscribed_streams.Nodup) :
    (ops.foldl WsClient.applyOp c).subscribed_streams.Nodup := by
  induction ops generalizing c with
  | nil => exact hc
  | cons op ops ih =>
    simp only [List.foldl_cons]
    apply ih
    cases op with
    | sub streams => exact List.nodup_dedup _
    | unsub streams => exact wsFoldlErase_nodup streams _ hc

/-- C9: over any sequence of subscribe/unsubscribe calls the subscribed
stream list stays duplicate-free; subscribing a list that repeats a stream
name (or repeats one already present) leaves exactly one entry for that
name; unsubscribing an absent stream leaves the list unchanged. -/
theorem C9_subscription_dedup (ops : List WsOp) (c : WsClient)
    (streams : List String) (name s : String)
    (hname : name ∈ c.subscribed_streams ∨ name ∈ streams)
    (hs : s ∉ c.subscribed_streams) :
    (WsClient.applyOps ops).subscribed_streams.Nodup
    ∧ (c.doSubscribe streams).subscribed_streams.count name = 1
    ∧ (c.doUnsubscribe [s]).subscribed_streams = c.subscribed_streams := by
  refine ⟨wsApplyOps_nodup ops WsClient.mk0 List.nodup_nil, ?_, ?_⟩
  · apply List.count_eq_one_of_mem (List.nodup_dedup _)
    rw [List.mem_dedup, List.mem_append]
    exact hname
  · simp only [WsClient.doUnsubscribe, List.foldl_cons, List.foldl_nil,
      if_neg hs]

theorem C9_subscription_dedup_witness :
    (WsClient.applyOps
        [WsOp.sub ["btcusdt@aggTrade"], WsOp.unsub ["ethusdt@depth"]]
      ).subscribed_streams.Nodup
    ∧ (WsClient.mk0.doSubscribe ["btcusdt@aggTrade", "btcusdt@aggTrade"]
      ).subscribed_streams.count "btcusdt@aggTrade" = 1
    ∧ (WsClient.mk0.doUnsubscribe ["ethusdt@depth"]).subscribed_streams
        = WsClient.mk0.subscribed_streams :=
  C9_subscription_dedup
    [WsOp.sub ["btcusdt@aggTrade"], WsOp.unsub ["ethusdt@depth"]]
    WsClient.mk0 ["btcusdt@aggTrade", "btcusdt@aggTrade"]
    "btcusdt@aggTrade" "ethusdt@depth"
    (Or.inr (by simp)) (by simp [WsClient.mk0])

/-- C6: the backoff computed for reconnect attempt n equals
min(5 * 2 ^ (n - 1), 300) seconds, giving 5, 10, 20, 40, 80, 160 seconds for
attempts 1..6 and exactly 300 seconds for every attempt of 9 or more, and a
successful connect resets the attempt counter to zero. -/
theorem C6_reconnect_backoff (n : ℕ) (c : WsClient) (hn : 1 ≤ n) :
    (WsClient.reconnectStep
        { WsClient.mk0 with reconnect_count := n - 1 }).2
      = min (5 * 2 ^ (n - 1)) 300
    ∧ (defaultBackoffAt 1 = 5 ∧ defaultBackoffAt 2 = 10
        ∧ defaultBackoffAt 3 = 20 ∧ defaultBackoffAt 4 = 40
        ∧ defaultBackoffAt 5 = 80 ∧ defaultBackoffAt 6 = 160)
    ∧ (9 ≤ n → defaultBackoffAt n = 300)
    ∧ c.onConnectSuccess.reconnect_count = 0 := by
  refine ⟨?_, by decide, ?_, rfl⟩
  · simp [WsClient.reconnectStep, WsClient.backoff, WsClient.mk0]
  · intro h9
    have h2 : (2 : ℕ) ^ 8 ≤ 2 ^ (n - 1) :=
      Nat.pow_le_pow_right (by norm_num) (by omega)
    have : 300 ≤ 5 * 2 ^ (n - 1) := by
      calc (300 : ℕ) ≤ 5 * 2 ^ 8 := by norm_num
        _ ≤ 5 * 2 ^ (n - 1) := Nat.mul_le_mul_left 5 h2
    simp [defaultBackoffAt, WsClient.backoff, WsClient.mk0,
      Nat.min_eq_right this]

theorem C6_reconnect_backoff_witness :
    (WsClient.reconnectStep
        { WsClient.mk0 with reconnect_count := 9 - 1 }).2
      = min (5 * 2 ^ (9 - 1)) 300
    ∧ (defaultBackoffAt 1 = 5 ∧ defaultBackoffAt 2 = 10
        ∧ defaultBackoffAt 3 = 20 ∧ defaultBackoffAt 4 = 40
        ∧ defaultBackoffAt 5 = 80 ∧ defaultBackoffAt 6 = 160)
    ∧ defaultBackoffAt 9 = 300
    ∧ WsClient.mk0.onConnectSuccess.reconnect_count = 0 := by
  have h := C6_reconnect_backoff 9 WsClient.mk0 (by norm_num)
  exact ⟨h.1, h.2.1, h.2.2.1 (by norm_num), h.2.2.2⟩

/-! ## Exchange REST interface: symbol metadata and rounding helpers

Model of `src/exchanges/binance/binance_futures_interface.py`
(`BinanceFuturesInterface`).  Two caches exist in the source: the
structured cache built by `refresh_symbols_info` (used by
`calculate_quantity_from_usdt`) and the raw per-symbol exchange payload
cached by `_get_symbol_info` (used by the two rounding helpers).
-/

/-- Structured per-symbol record built by `refresh_symbols_info`. -/
structure SymbolInfo where
  min_qty : ℚ
  qty_step : ℚ
  qty_precision : ℕ
  price_precision : ℕ
  price_tick : ℚ
  min_notional : ℚ
deriving Repr, DecidableEq

/-- One entry of the raw `filters` array of the exchange payload; the code
reads `filterType` and then either `tickSize` or `stepSize`. -/
structure RawFilter where
  filterType : String
  tickSize : ℚ
  stepSize : ℚ
deriving Repr, DecidableEq

/-- Raw per-symbol exchange payload as cached by `_get_symbol_info`. -/
structure RawSymbolInfo where
  filters : List RawFilter
deriving Repr, DecidableEq

/-- Python `symbol.endswith(suffix)` on the character-list view (the
built-in `String.endsWith` is definitionally opaque to the kernel). -/
def pyEndsWith (s suf : String) : Bool := suf.toList.isSuffixOf s.toList

/-- Containment test for `'USDT' in symbol` (Python substring test). -/
def listContainsSub (needle : List Char) : List Char → Bool
  | [] => needle.isEmpty
  | c :: t => needle.isPrefixOf (c :: t) || listContainsSub needle t

/-- Python `'USDT' in symbol`. -/
def containsUSDT (symbol : String) : Bool :=
  listContainsSub "USDT".toList symbol.toList

/-- Embeds `round_price_to_tick(symbol, price)`: with the raw payload
available, divide by the first PRICE_FILTER tick size, quantize to an
integer with ROUND_HALF_UP and multiply back; without the payload, quantize
to 2 decimals for USDT symbols and return the input otherwise.  A zero
tick size raises in Python; the model keeps the arithmetic total and every
theorem assumes a positive tick. -/
def round_price_to_tick (info : Option RawSymbolInfo) (symbol : String)
    (price : ℚ) : ℚ :=
  match info with
  | none => if containsUSDT symbol then quantizeHalfUp price 2 else price
  | some si =>
    match si.filters.find? (fun f => f.filterType = "PRICE_FILTER") with
    | some f => (roundHalfAway (price / f.tickSize) : ℚ) * f.tickSize
    | none => price

/-- Embeds `round_quantity_to_lot(symbol, quantity)`: same shape as price
rounding with the LOT_SIZE step size and a 3-decimal USDT fallback. -/
def round_quantity_to_lot (info : Option RawSymbolInfo) (symbol : String)
    (quantity : ℚ) : ℚ :=
  match info with
  | none => if containsUSDT symbol then quantizeHalfUp quantity 3 else quantity
  | some si =>
    match si.filters.find? (fun f => f.filterType = "LOT_SIZE") with
    | some f => (roundHalfAway (quantity / f.stepSize) : ℚ) * f.stepSize
    | none => quantity

/-- Embeds `calculate_quantity_from_usdt(symbol, usdt_amount)`.
Parameters stand for the interface state the call reads: `price?` is the
`get_price` result (the code treats a falsy price — absent or zero — as a
failure), `cached?` the structured-cache lookup before the refresh and
`refreshed?` the lookup after the one-shot `refresh_symbols_info` retry.
A zero step size would raise ZeroDivisionError in `raw_quantity % step_size`
and be converted to an absent result by the enclosing handler. -/
def calculate_quantity_from_usdt (symbol : String) (price? : Option ℚ)
    (cached? refreshed? : Option SymbolInfo) (usdt_amount : ℚ) : Option ℚ :=
  if ¬ pyEndsWith symbol "USDT" then none
  else
    match price? with
    | none => none
    | some price =>
      if price = 0 then none
      else
        match cached? <|> refreshed? with
        | none => none
        | some si =>
          if si.qty_step = 0 then none
          else
            let raw_quantity := usdt_amount / price
            let floored := raw_quantity - pyMod raw_quantity si.qty_step
            let quantity := roundDecHE floored si.qty_precision
            if quantity < si.min_qty then none
            else if quantity * price < si.min_notional then none
            else some quantity

theorem quantizeHalfUp_idem (x : ℚ) (n : ℕ) :
    quantizeHalfUp (quantizeHalfUp x n) n = quantizeHalfUp x n := by
  unfold quantizeHalfUp
  have hne : ((10 : ℚ) ^ n) ≠ 0 := by positivity
  rw [div_mul_cancel₀ _ hne, roundHalfAway_intCast]

theorem tickRound_idem (t x : ℚ) :
    (roundHalfAway ((roundHalfAway (x / t) : ℚ) * t / t) : ℚ) * t
      = (roundHalfAway (x / t) : ℚ) * t := by
  by_cases ht : t = 0
  · simp [ht]
  · rw [mul_div_cancel_right₀ _ ht, roundHalfAway_intCast]

/-- C3: both rounding helpers are idempotent for every symbol and value;
with the raw metadata present, a value that is an exact multiple of the
(strictly positive) tick/step size is returned unchanged and the result is
always an exact integer multiple of the tick/step size. -/
theorem C3_rounding_properties (m : RawSymbolInfo) (symbol : String)
    (p q tick step : ℚ) (pf qf : RawFilter) (i j : ℤ)
    (hpf : m.filters.find? (fun f => f.filterType = "PRICE_FILTER") = some pf)
    (hqf : m.filters.find? (fun f => f.filterType = "LOT_SIZE") = some qf)
    (htick : pf.tickSize = tick) (hstep : qf.stepSize = step)
    (ht : 0 < tick) (hs : 0 < step) :
    (∀ info sym x, round_price_to_tick info sym (round_price_to_tick info sym x)
        = round_price_to_tick info sym x)
    ∧ (∀ info sym x,
        round_quantity_to_lot info sym (round_quantity_to_lot info sym x)
          = round_quantity_to_lot info sym x)
    ∧ (p = (i : ℚ) * tick → round_price_to_tick (some m) symbol p = p)
    ∧ (q = (j : ℚ) * step → round_quantity_to_lot (some m) symbol q = q)
    ∧ (∃ a : ℤ, round_price_to_tick (some m) symbol p = (a : ℚ) * tick)
    ∧ (∃ b : ℤ, round_quantity_to_lot (some m) symbol q = (b : ℚ) * step) := by
  have htne : tick ≠ 0 := ne_of_gt ht
  have hsne : step ≠ 0 := ne_of_gt hs
  refine ⟨?_, ?_, ?_, ?_, ?_, ?_⟩
  · intro info sym x
    cases info with
    | none =>
      by_cases hu : containsUSDT sym
      · simp [round_price_to_tick, hu, quantizeHalfUp_idem]
      · simp [round_price_to_tick, hu]
    | some si =>
      cases hf : si.filters.find? (fun f => f.filterType = "PRICE_FILTER") with
      | none => simp [round_price_to_tick, hf]
      | some f => simp [round_price_to_tick, hf, tickRound_idem]
  · intro info sym x
    cases info with
    | none =>
      by_cases hu : containsUSDT sym
      · simp [round_quantity_to_lot, hu, quantizeHalfUp_idem]
      · simp [round_quantity_to_lot, hu]
    | some si =>
      cases hf : si.filters.find? (fun f => f.filterType = "LOT_SIZE") with
      | none => simp [round_quantity_to_lot, hf]
      | some f => simp [round_quantity_to_lot, hf, tickRound_idem]
  · intro hpmul
    simp only [round_price_to_tick, hpf, htick, hpmul]
    rw [mul_div_cancel_right₀ _ htne, roundHalfAway_intCast]
  · intro hqmul
    simp only [round_quantity_to_lot, hqf, hstep, hqmul]
    rw [mul_div_cancel_right₀ _ hsne, roundHalfAway_intCast]
  · exact ⟨roundHalfAway (p / tick), by
      simp only [round_price_to_tick, hpf, htick]⟩
  · exact ⟨roundHalfAway (q / step), by
      simp only [round_quantity_to_lot, hqf, hstep]⟩

/-- Raw metadata used by the C3 witness: a 0.1 price tick and a 0.001 lot
step, the shape of a typical USDT-perpetual payload. -/
def c3Meta : RawSymbolInfo :=
  { filters := [{ filterType := "PRICE_FILTER", tickSize := 1/10, stepSize := 0 },
                { filterType := "LOT_SIZE", tickSize := 0, stepSize := 1/1000 }] }

theorem C3_rounding_properties_witness :
    round_price_to_tick (some c3Meta) "BTCUSDT"
        (round_price_to_tick (some c3Meta) "BTCUSDT" (123/100))
      = round_price_to_tick (some c3Meta) "BTCUSDT" (123/100)
    ∧ round_quantity_to_lot (some c3Meta) "BTCUSDT"
        (round_quantity_to_lot (some c3Meta) "BTCUSDT" (7/2000))
      = round_quantity_to_lot (some c3Meta) "BTCUSDT" (7/2000)
    ∧ round_price_to_tick (some c3Meta) "BTCUSDT" (3/10) = 3/10
    ∧ round_quantity_to_lot (some c3Meta) "BTCUSDT" (5/1000) = 5/1000
    ∧ (∃ a : ℤ, round_price_to_tick (some c3Meta) "BTCUSDT" (123/100)
        = (a : ℚ) * (1/10))
    ∧ (∃ b : ℤ, round_quantity_to_lot (some c3Meta) "BTCUSDT" (7/2000)
        = (b : ℚ) * (1/1000)) := by
  have h := C3_rounding_properties c3Meta "BTCUSDT" (3/10) (5/1000)
    (1/10) (1/1000)
    { filterType := "PRICE_FILTER", tickSize := 1/10, stepSize := 0 }
    { filterType := "LOT_SIZE", tickSize := 0, stepSize := 1/1000 }
    3 5 (by simp [c3Meta, List.find?]) (by simp [c3Meta, List.find?])
    rfl rfl (by norm_num) (by norm_num)
  refine ⟨h.1 (some c3Meta) "BTCUSDT" (123/100),
    h.2.1 (some c3Meta) "BTCUSDT" (7/2000),
    h.2.2.1 (by norm_num), h.2.2.2.1 (by norm_num), ?_, ?_⟩
  · have h5 := C3_rounding_properties c3Meta "BTCUSDT" (123/100) (7/2000)
      (1/10) (1/1000)
      { filterType := "PRICE_FILTER", tickSize := 1/10, stepSize := 0 }
      { filterType := "LOT_SIZE", tickSize := 0, stepSize := 1/1000 }
      3 5 (by simp [c3Meta, List.find?]) (by simp [c3Meta, List.find?])
      rfl rfl (by norm_num) (by norm_num)
    exact h5.2.2.2.2.1
  · have h6 := C3_rounding_properties c3Meta "BTCUSDT" (123/100) (7/2000)
      (1/10) (1/1000)
      { filterType := "PRICE_FILTER", tickSize := 1/10, stepSize := 0 }
      { filterType := "LOT_SIZE", tickSize := 0, stepSize := 1/1000 }
      3 5 (by simp [c3Meta, List.find?]) (by simp [c3Meta, List.find?])
      rfl rfl (by norm_num) (by norm_num)
    exact h6.2.2.2.2.2

theorem floorQ_eq (z : ℤ) (q : ℚ) (h1 : (z : ℚ) ≤ q) (h2 : q < z + 1) :
    ⌊q⌋ = z :=
  Int.floor_eq_iff.mpr ⟨h1, by exact_mod_cast h2⟩

/-- Structured metadata for the C1 example: step size 0.001, quantity
precision 3, minimum quantity 0.001, minimum notional 5. -/
def btcSizingInfo : SymbolInfo :=
  { min_qty := 1/1000, qty_step := 1/1000, qty_precision := 3,
    price_precision := 2, price_tick := 1/10, min_notional := 5 }

/-- C1: for a USDT-quoted symbol with metadata available and a successful
(positive) price fetch, sizing returns usdt/price floored to the next lower
step multiple and rounded to the quantity precision, absent exactly when
that result is below the minimum quantity or its notional is below the
minimum notional; concretely, 100 USDT at price 50000 with step 0.001,
precision 3, minimum quantity 0.001 and minimum notional 5 yields exactly
0.002. -/
theorem C1_usdt_sizing (symbol : String) (price usdt : ℚ) (si : SymbolInfo)
    (h1 : pyEndsWith symbol "USDT" = true) (hp : 0 < price)
    (hs : 0 < si.qty_step) :
    calculate_quantity_from_usdt symbol (some price) (some si) none usdt
      = (if roundDecHE (si.qty_step * ⌊usdt / price / si.qty_step⌋)
              si.qty_precision < si.min_qty
          ∨ roundDecHE (si.qty_step * ⌊usdt / price / si.qty_step⌋)
              si.qty_precision * price < si.min_notional
         then none
         else some (roundDecHE (si.qty_step * ⌊usdt / price / si.qty_step⌋)
              si.qty_precision))
    ∧ calculate_quantity_from_usdt "BTCUSDT" (some 50000) (some btcSizingInfo)
        none 100 = some (2/1000) := by
  have hgen : ∀ (sym : String) (pr us : ℚ) (s : SymbolInfo),
      pyEndsWith sym "USDT" = true → 0 < pr → 0 < s.qty_step →
      calculate_quantity_from_usdt sym (some pr) (some s) none us
        = (if roundDecHE (s.qty_step * ⌊us / pr / s.qty_step⌋)
                s.qty_precision < s.min_qty
            ∨ roundDecHE (s.qty_step * ⌊us / pr / s.qty_step⌋)
                s.qty_precision * pr < s.min_notional
           then none
           else some (roundDecHE (s.qty_step * ⌊us / pr / s.qty_step⌋)
                s.qty_precision)) := by
    intro sym pr us s hends hpr hstep
    have hprne : pr ≠ 0 := ne_of_gt hpr
    have hstne : s.qty_step ≠ 0 := ne_of_gt hstep
    have hfl : us / pr - pyMod (us / pr) s.qty_step
        = s.qty_step * ⌊us / pr / s.qty_step⌋ := by
      unfold pyMod; ring
    simp only [calculate_quantity_from_usdt, hends, Bool.not_true,
      Bool.false_eq_true, if_false, Option.some_orElse, hprne, if_neg hprne,
      if_neg hstne, hfl]
    by_cases hq1 : roundDecHE (s.qty_step * ⌊us / pr / s.qty_step⌋)
        s.qty_precision < s.min_qty
    · simp [hq1]
    · by_cases hq2 : roundDecHE (s.qty_step * ⌊us / pr / s.qty_step⌋)
          s.qty_precision * pr < s.min_notional
      · simp [hq1, hq2]
      · simp [hq1, hq2]
  refine ⟨hgen symbol price usdt si h1 hp hs, ?_⟩
  rw [hgen "BTCUSDT" 50000 100 btcSizingInfo (by decide) (by norm_num)
    (by norm_num [btcSizingInfo])]
  have hfloor : ⌊(100 : ℚ) / 50000 / btcSizingInfo.qty_step⌋ = 2 := by
    apply floorQ_eq
    · norm_num [btcSizingInfo]
    · norm_num [btcSizingInfo]
  rw [hfloor]
  have hrd : roundDecHE (btcSizingInfo.qty_step * (2 : ℤ))
      btcSizingInfo.qty_precision = 2/1000 := by
    have h2 : btcSizingInfo.qty_step * ((2 : ℤ) : ℚ) * 10 ^ btcSizingInfo.qty_precision
        = ((2 : ℤ) : ℚ) := by
      norm_num [btcSizingInfo]
    unfold roundDecHE
    rw [h2, roundHalfEven_intCast]
    norm_num [btcSizingInfo]
  rw [hrd]
  norm_num [btcSizingInfo]

theorem C1_usdt_sizing_witness :
    calculate_quantity_from_usdt "BTCUSDT" (some 50000) (some btcSizingInfo)
        none 100 = some (2/1000) :=
  (C1_usdt_sizing "BTCUSDT" 50000 100 btcSizingInfo (by decide) (by norm_num)
    (by norm_num [btcSizingInfo])).2

/-! ## Copy trading strategy

Model of `src/strategies/copy_trading/strategy.py`
(`CopyTradingStrategy._copy_trade`): the mirror arithmetic applied to one
source fill.  `coefficient?`/`reverse_trades?` model
`source_config.get('coefficient', 1.0)` and
`source_config.get('reverse_trades', False)`; `mainMeta` is the main
interface's raw metadata consulted by `round_quantity_to_lot`.
-/

/-- Market order the mirror operation submits on the main account, plus the
intermediate `calculated_qty` local. -/
structure MirrorOrder where
  symbol : String
  side : String
  calculated_qty : ℚ
  quantity : ℚ
deriving Repr, DecidableEq

/-- Embeds the body of `_copy_trade`: scale by the coefficient, round to the
main account's lot size, flip the side when reverse trading is enabled. -/
def copy_trade (coefficient? : Option ℚ) (reverse_trades? : Option Bool)
    (mainMeta : Option RawSymbolInfo) (symbol side : String)
    (original_qty : ℚ) : MirrorOrder :=
  let coefficient := coefficient?.getD 1
  let calculated_qty := original_qty * coefficient
  let rounded_qty := round_quantity_to_lot mainMeta symbol calculated_qty
  let final_side :=
    if reverse_trades?.getD false then
      if side = "BUY" then "SELL" else "BUY"
    else side
  { symbol := symbol, side := final_side,
    calculated_qty := calculated_qty, quantity := rounded_qty }

/-- C2: a mirrored fill is sized as original quantity times the source
coefficient, rounded to the main account's lot size, with the side kept
when reverse_trades is false and flipped BUY-SELL when it is true; a BUY
2.0 fill at coefficient 0.5 gives raw size 1.0, mirrored as BUY without
reversal and as SELL with reversal. -/
theorem C2_copy_mirror (coeff : ℚ) (rev : Bool) (meta : Option RawSymbolInfo)
    (symbol side : String) (qty : ℚ) :
    (copy_trade (some coeff) (some rev) meta symbol side qty).quantity
        = round_quantity_to_lot meta symbol (qty * coeff)
    ∧ (copy_trade (some coeff) (some rev) meta symbol side qty).calculated_qty
        = qty * coeff
    ∧ (copy_trade (some coeff) (some false) meta symbol side qty).side = side
    ∧ (side = "BUY" →
        (copy_trade (some coeff) (some true) meta symbol side qty).side
          = "SELL")
    ∧ (side = "SELL" →
        (copy_trade (some coeff) (some true) meta symbol side qty).side
          = "BUY")
    ∧ (copy_trade (some (1/2)) (some false) meta "ETHUSDT" "BUY" 2
        ).calculated_qty = 1
    ∧ (copy_trade (some (1/2)) (some false) meta "ETHUSDT" "BUY" 2
        ).side = "BUY"
    ∧ (copy_trade (some (1/2)) (some true) meta "ETHUSDT" "BUY" 2
        ).calculated_qty = 1
    ∧ (copy_trade (some (1/2)) (some true) meta "ETHUSDT" "BUY" 2
        ).side = "SELL" := by
  refine ⟨rfl, rfl, rfl, ?_, ?_, by norm_num [copy_trade], rfl,
    by norm_num [copy_trade], rfl⟩
  · intro h
    subst h
    rfl
  · intro h
    subst h
    simp [copy_trade]
  
theorem C2_copy_mirror_witness :
    (copy_trade (some (1/2)) (some true) none "ETHUSDT" "BUY" 2).side = "SELL"
    ∧ (copy_trade (some (1/2)) (some true) none "ETHUSDT" "SELL" 2).side
        = "BUY" := by
  have h1 := C2_copy_mirror (1/2) true none "ETHUSDT" "BUY" 2
  have h2 := C2_copy_mirror (1/2) true none "ETHUSDT" "SELL" 2
  exact ⟨h1.2.2.2.1 rfl, h2.2.2.2.2.1 rfl⟩

/-! ## Liquidation analysis, Stage 3 filters

Model of `examples/liquidation_analysing/003_analyze_liquidations.py`
(`apply_initial_filters`, `apply_advanced_filters`).  A dataframe row is a
record; indicator columns may be NaN (modelled as `none`) — pandas
comparisons against NaN are false, so a bounded filter drops such rows,
while a bound set to None skips its filter line entirely.
-/

structure LiqRow where
  usd_amount : ℚ
  avg_price : ℚ
  has_data : Bool
  volatility : Option ℚ
  mean_volume_usdt : Option ℚ
  volume_ratio : Option ℚ
  candle_volume_usdt : Option ℚ
  candle_ratio : Option ℚ
deriving Repr, DecidableEq

/-- Pandas `df[df[col] >= bound]` on a possibly-NaN column. -/
def passMinB (b : ℚ) (v : Option ℚ) : Bool :=
  match v with
  | none => false
  | some x => b ≤ x

/-- Pandas `df[df[col] <= bound]` on a possibly-NaN column. -/
def passMaxB (b : ℚ) (v : Option ℚ) : Bool :=
  match v with
  | none => false
  | some x => x ≤ b

/-- One optional minimum-bound filter line of `apply_advanced_filters`. -/
def liqFilterMin (bound : Option ℚ) (f : LiqRow → Option ℚ)
    (rows : List LiqRow) : List LiqRow :=
  match bound with
  | none => rows
  | some b => rows.filter (fun r => passMinB b (f r))

/-- One optional maximum-bound filter line of `apply_advanced_filters`. -/
def liqFilterMax (bound : Option ℚ) (f : LiqRow → Option ℚ)
    (rows : List LiqRow) : List LiqRow :=
  match bound with
  | none => rows
  | some b => rows.filter (fun r => passMaxB b (f r))

/-- Embeds `apply_initial_filters`: USDT-notional minimum, then
average-price minimum, each disabled when configured as None. -/
def apply_initial_filters (minUsdt minPrice : Option ℚ)
    (rows : List LiqRow) : List LiqRow :=
  let r1 :=
    match minUsdt with
    | none => rows
    | some m => rows.filter (fun r => m ≤ r.usd_amount)
  match minPrice with
  | none => r1
  | some m => r1.filter (fun r => m ≤ r.avg_price)

/-- Embeds `apply_advanced_filters`: require market data, then the six
independently optional bounds in source order. -/
def apply_advanced_filters (minVR maxVR minCR maxCR minVol maxVol : Option ℚ)
    (rows : List LiqRow) : List LiqRow :=
  let r0 := rows.filter (fun r => r.has_data)
  let r1 := liqFilterMin minVR (fun r => r.volume_ratio) r0
  let r2 := liqFilterMax maxVR (fun r => r.volume_ratio) r1
  let r3 := liqFilterMin minCR (fun r => r.candle_ratio) r2
  let r4 := liqFilterMax maxCR (fun r => r.candle_ratio) r3
  let r5 := liqFilterMin minVol (fun r => r.volatility) r4
  liqFilterMax maxVol (fun r => r.volatility) r5

/-- Option-level pass test for a minimum bound (true when disabled). -/
def passMin (bound : Option ℚ) (v : Option ℚ) : Bool :=
  match bound with
  | none => true
  | some b => passMinB b v

/-- Option-level pass test for a maximum bound (true when disabled). -/
def passMax (bound : Option ℚ) (v : Option ℚ) : Bool :=
  match bound with
  | none => true
  | some b => passMaxB b v

theorem filter_sublist_of_imp {α : Type} (l : List α) (p q : α → Bool)
    (h : ∀ a, p a = true → q a = true) :
    List.Sublist (l.filter p) (l.filter q) := by
  induction l with
  | nil => exact List.Sublist.refl _
  | cons a t ih =>
    by_cases hp : p a = true
    · rw [List.filter_cons_of_pos hp, List.filter_cons_of_pos (h a hp)]
      exact ih.cons₂ a
    · rw [List.filter_cons_of_neg (by simpa using hp)]
      by_cases hq : q a = true
      · rw [List.filter_cons_of_pos hq]
        exact ih.trans (List.sublist_cons_self a _)
      · rw [List.filter_cons_of_neg (by simpa using hq)]
        exact ih

theorem filter_sub_mono {α : Type} {l₁ l₂ : List α} (p₁ p₂ : α → Bool)
    (hl : List.Sublist l₂ l₁) (hp : ∀ a, p₂ a = true → p₁ a = true) :
    List.Sublist (l₂.filter p₂) (l₁.filter p₁) :=
  (filter_sublist_of_imp l₂ p₂ p₁ hp).trans (hl.filter p₁)

theorem liqFilterMin_eq (bound : Option ℚ) (f : LiqRow → Option ℚ)
    (rows : List LiqRow) :
    liqFilterMin bound f rows = rows.filter (fun r => passMin bound (f r)) := by
  cases bound with
  | none => simp [liqFilterMin, passMin, List.filter_true]
  | some b => simp [liqFilterMin, passMin]

theorem liqFilterMax_eq (bound : Option ℚ) (f : LiqRow → Option ℚ)
    (rows : List LiqRow) :
    liqFilterMax bound f rows = rows.filter (fun r => passMax bound (f r)) := by
  cases bound with
  | none => simp [liqFilterMax, passMax, List.filter_true]
  | some b => simp [liqFilterMax, passMax]

theorem liqFilterMin_mono (b₁ b₂ : Option ℚ) (f : LiqRow → Option ℚ)
    {l₁ l₂ : List LiqRow}
    (hb : ∀ v, passMin b₂ v = true → passMin b₁ v = true)
    (hl : List.Sublist l₂ l₁) :
    List.Sublist (liqFilterMin b₂ f l₂) (liqFilterMin b₁ f l₁) := by
  rw [liqFilterMin_eq, liqFilterMin_eq]
  exact filter_sub_mono _ _ hl (fun a => hb (f a))

theorem liqFilterMax_mono (b₁ b₂ : Option ℚ) (f : LiqRow → Option ℚ)
    {l₁ l₂ : List LiqRow}
    (hb : ∀ v, passMax b₂ v = true → passMax b₁ v = true)
    (hl : List.Sublist l₂ l₁) :
    List.Sublist (liqFilterMax b₂ f l₂) (liqFilterMax b₁ f l₁) := by
  rw [liqFilterMax_eq, liqFilterMax_eq]
  exact filter_sub_mono _ _ hl (fun a => hb (f a))

/-- Tightening of a minimum bound: raising the threshold. -/
theorem passMin_tighter_of_le {a b : ℚ} (hab : a ≤ b) :
    ∀ v, passMin (some b) v = true → passMin (some a) v = true := by
  intro v hv
  cases v with
  | none => simpa [passMin, passMinB] using hv
  | some x =>
    simp only [passMin, passMinB, decide_eq_true_eq] at hv ⊢
    exact le_trans hab hv

/-- Tightening of a maximum bound: lowering the threshold. -/
theorem passMax_tighter_of_le {a b : ℚ} (hba : b ≤ a) :
    ∀ v, passMax (some b) v = true → passMax (some a) v = true := by
  intro v hv
  cases v with
  | none => simpa [passMax, passMaxB] using hv
  | some x =>
    simp only [passMax, passMaxB, decide_eq_true_eq] at hv ⊢
    exact le_trans hv hba

/-- Enabling a previously disabled bound is also a tightening. -/
theorem passMin_tighter_none (m : Option ℚ) :
    ∀ v, passMin m v = true → passMin none v = true := by
  intro v _
  rfl

theorem passMax_tighter_none (m : Option ℚ) :
    ∀ v, passMax m v = true → passMax none v = true := by
  intro v _
  rfl

/-- C7: for a fixed input, raising the initial USDT-notional threshold never
increases the initially surviving row count, and replacing every advanced
bound with a pointwise tighter one (raising a minimum, lowering a maximum,
or enabling a disabled bound) never increases the final surviving row
count. -/
theorem C7_filter_monotone (rows : List LiqRow) (a b : ℚ) (mp : Option ℚ)
    (hab : a ≤ b)
    (vr₁ vr₂ VR₁ VR₂ cr₁ cr₂ CR₁ CR₂ vo₁ vo₂ VO₁ VO₂ : Option ℚ)
    (h1 : ∀ v, passMin vr₂ v = true → passMin vr₁ v = true)
    (h2 : ∀ v, passMax VR₂ v = true → passMax VR₁ v = true)
    (h3 : ∀ v, passMin cr₂ v = true → passMin cr₁ v = true)
    (h4 : ∀ v, passMax CR₂ v = true → passMax CR₁ v = true)
    (h5 : ∀ v, passMin vo₂ v = true → passMin vo₁ v = true)
    (h6 : ∀ v, passMax VO₂ v = true → passMax VO₁ v = true) :
    (apply_initial_filters (some b) mp rows).length
      ≤ (apply_initial_filters (some a) mp rows).length
    ∧ (apply_advanced_filters vr₂ VR₂ cr₂ CR₂ vo₂ VO₂ rows).length
      ≤ (apply_advanced_filters vr₁ VR₁ cr₁ CR₁ vo₁ VO₁ rows).length := by
  constructor
  · have hstage1 : List.Sublist (rows.filter (fun r => b ≤ r.usd_amount))
        (rows.filter (fun r => a ≤ r.usd_amount)) := by
      apply filter_sublist_of_imp
      intro r hr
      simp only [decide_eq_true_eq] at hr ⊢
      exact le_trans hab hr
    cases mp with
    | none =>
      simpa [apply_initial_filters] using hstage1.length_le
    | some m =>
      simp only [apply_initial_filters]
      exact (hstage1.filter _).length_le
  · have s0 : List.Sublist (rows.filter (fun r => r.has_data))
        (rows.filter (fun r => r.has_data)) := List.Sublist.refl _
    have s1 := liqFilterMin_mono vr₁ vr₂ (fun r => r.volume_ratio) h1 s0
    have s2 := liqFilterMax_mono VR₁ VR₂ (fun r => r.volume_ratio) h2 s1
    have s3 := liqFilterMin_mono cr₁ cr₂ (fun r => r.candle_ratio) h3 s2
    have s4 := liqFilterMax_mono CR₁ CR₂ (fun r => r.candle_ratio) h4 s3
    have s5 := liqFilterMin_mono vo₁ vo₂ (fun r => r.volatility) h5 s4
    have s6 := liqFilterMax_mono VO₁ VO₂ (fun r => r.volatility) h6 s5
    exact s6.length_le

/-- Two-row input used by the C7 witness. -/
def c7Rows : List LiqRow :=
  [{ usd_amount := 15000, avg_price := 1, has_data := true,
     volatility := some (1/10), mean_volume_usdt := some 100,
     volume_ratio := some 1, candle_volume_usdt := some 10,
     candle_ratio := some 2 },
   { usd_amount := 5000, avg_price := 1, has_data := true,
     volatility := none, mean_volume_usdt := none, volume_ratio := none,
     candle_volume_usdt := none, candle_ratio := none }]

theorem C7_filter_monotone_witness :
    (apply_initial_filters (some 20000) (some (1/100)) c7Rows).length
      ≤ (apply_initial_filters (some 10000) (some (1/100)) c7Rows).length
    ∧ (apply_advanced_filters (some 1) none (some (1/10)) none
          (some (6/100)) none c7Rows).length
      ≤ (apply_advanced_filters (some (1/2)) none (some (1/10)) none
          (some (6/100)) none c7Rows).length :=
  C7_filter_monotone c7Rows 10000 20000 (some (1/100)) (by norm_num)
    (some (1/2)) (some 1) none none (some (1/10)) (some (1/10)) none none
    (some (6/100)) (some (6/100)) none none
    (passMin_tighter_of_le (by norm_num)) (fun _ h => h) (fun _ h => h)
    (fun _ h => h) (fun _ h => h) (fun _ h => h)

/-! ## Lead trader analysis web application: datastore

Model of `examples/lead_trader_analysis/web/database.py` (`Database`).
Tables are lists of row records in autoincrement-id (insertion) order; a
DELETE keeps the remaining rows in place and an INSERT appends.  Nullable
columns are `Option`-valued.
-/

/-- Row of the `lead_positions` table. -/
structure LeadPosRow where
  lead_trader_id : ℕ
  symbol : Option String
  side : Option String
  size : ℚ
  entry_price : ℚ
  mark_price : ℚ
  pnl : ℚ
  percentage : ℚ
  copy_balance_coeff : ℚ
deriving Repr, DecidableEq

/-- Position dict passed to `update_lead_positions`; every field is read
with `pos.get(...)`, so any of them may be absent. -/
structure LeadPosInput where
  symbol : Option String
  side : Option String
  size : Option ℚ
  entry_price : Option ℚ
  mark_price : Option ℚ
  pnl : Option ℚ
  percentage : Option ℚ
  copy_balance_coeff : Option ℚ
deriving Repr, DecidableEq

/-- Values bound by the INSERT inside `update_lead_positions`: `get`
defaults 0 for the numeric fields and 0.01 for the coefficient. -/
def toLeadPosRow (tid : ℕ) (p : LeadPosInput) : LeadPosRow :=
  { lead_trader_id := tid, symbol := p.symbol, side := p.side,
    size := p.size.getD 0, entry_price := p.entry_price.getD 0,
    mark_price := p.mark_price.getD 0, pnl := p.pnl.getD 0,
    percentage := p.percentage.getD 0,
    copy_balance_coeff := p.copy_balance_coeff.getD (1/100) }

/-- Embeds `update_lead_positions`: DELETE every row of the trader, then
INSERT the new rows.  The UNIQUE(lead_trader_id, symbol) constraint makes
the INSERT raise (and the closed connection roll the whole call back) when
the input repeats a non-null symbol; that exception path is the `none`
result. -/
def update_lead_positions (db : List LeadPosRow) (tid : ℕ)
    (positions : List LeadPosInput) : Option (List LeadPosRow) :=
  if (positions.filterMap (fun p => p.symbol)).Nodup then
    some (db.filter (fun r => ! (r.lead_trader_id == tid))
      ++ positions.map (toLeadPosRow tid))
  else none

/-- Embeds `get_lead_positions`: SELECT by trader id, ordered by id. -/
def get_lead_positions (db : List LeadPosRow) (tid : ℕ) : List LeadPosRow :=
  db.filter (fun r => r.lead_trader_id == tid)

theorem C8_keep_other (db : List LeadPosRow) (tid tid2 : ℕ)
    (hne : tid2 ≠ tid) :
    (db.filter (fun r => ! (r.lead_trader_id == tid))).filter
        (fun r => r.lead_trader_id == tid2)
      = db.filter (fun r => r.lead_trader_id == tid2) := by
  rw [List.filter_filter]
  apply List.filter_congr
  intro r _
  by_cases h : r.lead_trader_id = tid2
  · have hne2 : ¬ r.lead_trader_id = tid := by
      rw [h]; exact hne
    simp [h, hne2, hne]
  · simp [h]

/-- C8: refreshing a trader's positions with set A and then set B leaves
exactly B's rows queryable for that trader afterward, and every other
trader's query result is unchanged. -/
theorem C8_replace_on_refresh (db : List LeadPosRow) (tid : ℕ)
    (A B : List LeadPosInput)
    (hA : (A.filterMap (fun p => p.symbol)).Nodup)
    (hB : (B.filterMap (fun p => p.symbol)).Nodup) :
    ∃ db1 db2,
      update_lead_positions db tid A = some db1
      ∧ update_lead_positions db1 tid B = some db2
      ∧ get_lead_positions db2 tid = B.map (toLeadPosRow tid)
      ∧ ∀ tid2, tid2 ≠ tid →
          get_lead_positions db2 tid2 = get_lead_positions db tid2 := by
  have hkeep_self :
      (db.filter (fun r => ! (r.lead_trader_id == tid))).filter
          (fun r => ! (r.lead_trader_id == tid))
        = db.filter (fun r => ! (r.lead_trader_id == tid)) :=
    List.filter_eq_self.mpr (fun a ha => (List.mem_filter.mp ha).2)
  have hmap_gone : ∀ ps : List LeadPosInput,
      ((ps.map (toLeadPosRow tid)).filter
          (fun r => ! (r.lead_trader_id == tid))) = [] := by
    intro ps
    rw [List.filter_eq_nil_iff]
    intro a ha
    rcases List.mem_map.mp ha with ⟨p, _, rfl⟩
    simp [toLeadPosRow]
  have hmap_keep : ∀ ps : List LeadPosInput,
      ((ps.map (toLeadPosRow tid)).filter
          (fun r => r.lead_trader_id == tid)) = ps.map (toLeadPosRow tid) := by
    intro ps
    apply List.filter_eq_self.mpr
    intro a ha
    rcases List.mem_map.mp ha with ⟨p, _, rfl⟩
    simp [toLeadPosRow]
  have hkeep_tid :
      ((db.filter (fun r => ! (r.lead_trader_id == tid))).filter
          (fun r => r.lead_trader_id == tid)) = [] := by
    rw [List.filter_eq_nil_iff]
    intro a ha
    have h2 := (List.mem_filter.mp ha).2
    simpa using h2
  have hmap_other : ∀ (ps : List LeadPosInput) (tid2 : ℕ), tid2 ≠ tid →
      ((ps.map (toLeadPosRow tid)).filter
          (fun r => r.lead_trader_id == tid2)) = [] := by
    intro ps tid2 hne
    rw [List.filter_eq_nil_iff]
    intro a ha
    rcases List.mem_map.mp ha with ⟨p, _, rfl⟩
    simp [toLeadPosRow]
    exact fun h => absurd h.symm hne
  have hdb1 : ((db.filter (fun r => ! (r.lead_trader_id == tid))
        ++ A.map (toLeadPosRow tid)).filter
          (fun r => ! (r.lead_trader_id == tid)))
      = db.filter (fun r => ! (r.lead_trader_id == tid)) := by
    rw [List.filter_append, hkeep_self, hmap_gone, List.append_nil]
  refine ⟨db.filter (fun r => ! (r.lead_trader_id == tid))
      ++ A.map (toLeadPosRow tid),
    db.filter (fun r => ! (r.lead_trader_id == tid))
      ++ B.map (toLeadPosRow tid),
    ?_, ?_, ?_, ?_⟩
  · rw [update_lead_positions, if_pos hA]
  · rw [update_lead_positions, if_pos hB, hdb1]
  · rw [get_lead_positions, List.filter_append, hkeep_tid, hmap_keep,
      List.nil_append]
  · intro tid2 hne
    rw [get_lead_positions, get_lead_positions, List.filter_append,
      C8_keep_other db tid tid2 hne, hmap_other B tid2 hne, List.append_nil]

/-- Position set A for the C8 witness. -/
def c8PosA : LeadPosInput :=
  { symbol := some "BTCUSDT", side := some "BUY", size := some 1,
    entry_price := some 50000, mark_price := some 50000, pnl := some 0,
    percentage := some 0, copy_balance_coeff := some (1/100) }

/-- Position set B for the C8 witness. -/
def c8PosB : LeadPosInput :=
  { symbol := some "ETHUSDT", side := some "SELL", size := some 2,
    entry_price := some 3000, mark_price := some 3000, pnl := some 0,
    percentage := some 0, copy_balance_coeff := some (1/50) }

theorem C8_replace_on_refresh_witness :
    ∃ db1 db2,
      update_lead_positions [] 1 [c8PosA] = some db1
      ∧ update_lead_positions db1 1 [c8PosB] = some db2
      ∧ get_lead_positions db2 1 = [c8PosB].map (toLeadPosRow 1)
      ∧ ∀ tid2, tid2 ≠ 1 →
          get_lead_positions db2 tid2 = get_lead_positions [] tid2 :=
  C8_replace_on_refresh [] 1 [c8PosA] [c8PosB]
    (by simp [c8PosA]) (by simp [c8PosB])

/-- Row of the `lead_traders` table. -/
structure LeadTraderRow where
  id : ℕ
  user_id : ℕ
  portfolio_id : String
  nickname : String
  reverse_trading : Bool
  reverse_coefficient : ℚ
  margin_balance : ℚ
  copy_balance : ℚ
  is_active : Bool
  created_at : ℕ
  updated_at : ℕ
deriving Repr, DecidableEq

/-- Effect of the four-column UPDATE branch of `update_lead_trader` on one
row (SET reverse_trading, reverse_coefficient, margin_balance,
copy_balance, updated_at WHERE id = trader_id). -/
def updTraderFull (now tid : ℕ) (rt : Bool) (rc : ℚ) (m c : ℚ)
    (r : LeadTraderRow) : LeadTraderRow :=
  if r.id = tid then
    { r with
      reverse_trading := rt
      reverse_coefficient := rc
      margin_balance := m
      copy_balance := c
      updated_at := now }
  else r

/-- Effect of the two-column UPDATE branch of `update_lead_trader` on one
row (SET reverse_trading, reverse_coefficient, updated_at
WHERE id = trader_id). -/
def updTraderPart (now tid : ℕ) (rt : Bool) (rc : ℚ)
    (r : LeadTraderRow) : LeadTraderRow :=
  if r.id = tid then
    { r with
      reverse_trading := rt
      reverse_coefficient := rc
      updated_at := now }
  else r

/-- Embeds `update_lead_trader`: the four-column UPDATE runs only when both
margin_balance and copy_balance are supplied, otherwise the two-column one;
the returned flag is `rowcount > 0`.  `now` stands for CURRENT_TIMESTAMP. -/
def update_lead_trader (db : List LeadTraderRow) (now tid : ℕ) (rt : Bool)
    (rc : ℚ) (mb cb : Option ℚ) : List LeadTraderRow × Bool :=
  match mb, cb with
  | some m, some c =>
    (db.map (updTraderFull now tid rt rc m c), db.any (fun r => r.id == tid))
  | _, _ =>
    (db.map (updTraderPart now tid rt rc), db.any (fun r => r.id == tid))

/-- C10: `update_lead_trader` writes both balances only when both are
supplied; otherwise both balances keep their old values while the
reverse-trading flag, reverse coefficient and updated-at are still written;
id, user id, portfolio id, nickname, active flag and created-at are never
touched, and rows of other traders are untouched entirely. -/
theorem C10_update_trader_frame (db db2 : List LeadTraderRow) (ok : Bool)
    (now tid : ℕ) (rt : Bool) (rc : ℚ) (mb cb : Option ℚ)
    (hu : update_lead_trader db now tid rt rc mb cb = (db2, ok))
    (i : ℕ) (hi : i < db.length) (hi2 : i < db2.length) :
    db2.length = db.length
    ∧ (db2.get ⟨i, hi2⟩).id = (db.get ⟨i, hi⟩).id
    ∧ (db2.get ⟨i, hi2⟩).user_id = (db.get ⟨i, hi⟩).user_id
    ∧ (db2.get ⟨i, hi2⟩).portfolio_id = (db.get ⟨i, hi⟩).portfolio_id
    ∧ (db2.get ⟨i, hi2⟩).nickname = (db.get ⟨i, hi⟩).nickname
    ∧ (db2.get ⟨i, hi2⟩).is_active = (db.get ⟨i, hi⟩).is_active
    ∧ (db2.get ⟨i, hi2⟩).created_at = (db.get ⟨i, hi⟩).created_at
    ∧ ((db.get ⟨i, hi⟩).id ≠ tid → db2.get ⟨i, hi2⟩ = db.get ⟨i, hi⟩)
    ∧ ((db.get ⟨i, hi⟩).id = tid →
        (db2.get ⟨i, hi2⟩).reverse_trading = rt
        ∧ (db2.get ⟨i, hi2⟩).reverse_coefficient = rc
        ∧ (db2.get ⟨i, hi2⟩).updated_at = now)
    ∧ (∀ m c, mb = some m → cb = some c → (db.get ⟨i, hi⟩).id = tid →
        (db2.get ⟨i, hi2⟩).margin_balance = m
        ∧ (db2.get ⟨i, hi2⟩).copy_balance = c)
    ∧ (mb = none ∨ cb = none →
        (db2.get ⟨i, hi2⟩).margin_balance = (db.get ⟨i, hi⟩).margin_balance
        ∧ (db2.get ⟨i, hi2⟩).copy_balance = (db.get ⟨i, hi⟩).copy_balance) := by
  have hdb2 : db2 = (update_lead_trader db now tid rt rc mb cb).1 := by
    rw [hu]
  subst hdb2
  cases mb with
  | some m =>
    cases cb with
    | some c =>
      by_cases h : (db.get ⟨i, hi⟩).id = tid <;>
        refine ⟨?_, ?_, ?_, ?_, ?_, ?_, ?_, ?_, ?_, ?_, ?_⟩ <;>
        intros <;>
        simp_all [update_lead_trader, updTraderFull, List.get_eq_getElem,
          List.getElem_map]
    | none =>
      by_cases h : (db.get ⟨i, hi⟩).id = tid <;>
        refine ⟨?_, ?_, ?_, ?_, ?_, ?_, ?_, ?_, ?_, ?_, ?_⟩ <;>
        intros <;>
        simp_all [update_lead_trader, updTraderPart, List.get_eq_getElem,
          List.getElem_map]
  | none =>
    by_cases h : (db.get ⟨i, hi⟩).id = tid <;>
      refine ⟨?_, ?_, ?_, ?_, ?_, ?_, ?_, ?_, ?_, ?_, ?_⟩ <;>
      intros <;>
      simp_all [update_lead_trader, updTraderPart, List.get_eq_getElem,
        List.getElem_map]

/-- Stored trader row used by the C10 witness. -/
def c10Row : LeadTraderRow :=
  { id := 1, user_id := 7, portfolio_id := "pf1", nickname := "alice",
    reverse_trading := false, reverse_coefficient := 1,
    margin_balance := 100, copy_balance := 10, is_active := true,
    created_at := 5, updated_at := 5 }

/-- Table state after an update that omits the margin balance. -/
def c10Db2 : List LeadTraderRow :=
  (update_lead_trader [c10Row] 9 1 true 2 none (some 3)).1

theorem c10Db2_lt : 0 < c10Db2.length := by
  simp [c10Db2, update_lead_trader]

theorem C10_update_trader_frame_witness :
    (c10Db2.get ⟨0, c10Db2_lt⟩).margin_balance = c10Row.margin_balance
    ∧ (c10Db2.get ⟨0, c10Db2_lt⟩).copy_balance = c10Row.copy_balance
    ∧ (c10Db2.get ⟨0, c10Db2_lt⟩).reverse_trading = true
    ∧ (c10Db2.get ⟨0, c10Db2_lt⟩).reverse_coefficient = 2
    ∧ (c10Db2.get ⟨0, c10Db2_lt⟩).updated_at = 9
    ∧ (c10Db2.get ⟨0, c10Db2_lt⟩).nickname = c10Row.nickname := by
  have h := C10_update_trader_frame [c10Row] c10Db2
    (update_lead_trader [c10Row] 9 1 true 2 none (some 3)).2
    9 1 true 2 none (some 3) rfl 0 (by norm_num) c10Db2_lt
  have htid := h.2.2.2.2.2.2.2.2.1 rfl
  have hbal := h.2.2.2.2.2.2.2.2.2.2 (Or.inl rfl)
  exact ⟨hbal.1, hbal.2, htid.1, htid.2.1, htid.2.2, h.2.2.2.2.1⟩

/-! ## Lead trader analysis web application: trade summary

Model of `examples/lead_trader_analysis/web/app.py` (`get_trade_summary`):
the aggregation of tracked lead-trader positions into a per-symbol net
calculated position, the aggregation of the user's cached positions into a
net actual position, and the comparison row built for one symbol.
-/

/-- Trader fields read by the summary loop. -/
structure TsTrader where
  reverse_trading : Bool
  reverse_coefficient : ℚ
deriving Repr, DecidableEq

/-- Tracked position fields read by the summary loop. -/
structure TsLeadPos where
  symbol : String
  side : String
  size : ℚ
  copy_balance_coeff : ℚ
deriving Repr, DecidableEq

/-- Cached user position fields read by the summary loop. -/
structure TsUserPos where
  symbol : String
  side : String
  size : ℚ
deriving Repr, DecidableEq

/-- Per-position computation of the summary loop: copy-balance size
`size * copy_balance_coeff`, then the reverse-trading branch scales by the
reverse coefficient and flips the side. -/
def calcFinal (t : TsTrader) (p : TsLeadPos) : String × ℚ :=
  let copy_balance_size := p.size * p.copy_balance_coeff
  if t.reverse_trading then
    (if p.side = "BUY" then "SELL" else "BUY",
     copy_balance_size * t.reverse_coefficient)
  else (p.side, copy_balance_size)

/-- BUY bucket of `calculated_positions[symbol]` (positions whose final
side is not BUY/SELL are skipped by the loop's continue). -/
def calcBuySum (tps : List (TsTrader × List TsLeadPos)) (sym : String) : ℚ :=
  (tps.map (fun tp =>
    ((tp.2.filter (fun p => p.symbol == sym)).map (fun p =>
      if (calcFinal tp.1 p).1 == "BUY" then (calcFinal tp.1 p).2 else 0)).sum)).sum

/-- SELL bucket of `calculated_positions[symbol]`. -/
def calcSellSum (tps : List (TsTrader × List TsLeadPos)) (sym : String) : ℚ :=
  (tps.map (fun tp =>
    ((tp.2.filter (fun p => p.symbol == sym)).map (fun p =>
      if (calcFinal tp.1 p).1 == "SELL" then (calcFinal tp.1 p).2 else 0)).sum)).sum

/-- Net calculated position: `calc['BUY'] - calc['SELL']`. -/
def calcNet (tps : List (TsTrader × List TsLeadPos)) (sym : String) : ℚ :=
  calcBuySum tps sym - calcSellSum tps sym

/-- Signed contribution of one tracked position, the shape in which the
specification states the net (sum of BUY minus sum of SELL). -/
def signedContrib (t : TsTrader) (p : TsLeadPos) : ℚ :=
  if (calcFinal t p).1 == "BUY" then (calcFinal t p).2
  else if (calcFinal t p).1 == "SELL" then -(calcFinal t p).2
  else 0

/-- Net calculated position in the specification's signed-sum form. -/
def calcNetSpec (tps : List (TsTrader × List TsLeadPos)) (sym : String) : ℚ :=
  (tps.map (fun tp =>
    ((tp.2.filter (fun p => p.symbol == sym)).map
      (fun p => signedContrib tp.1 p)).sum)).sum

/-- BUY bucket of `actual_by_symbol[symbol]` (invalid sides skipped). -/
def actualBuySum (ups : List TsUserPos) (sym : String) : ℚ :=
  ((ups.filter (fun p => p.symbol == sym && p.side == "BUY")).map
    (fun p => p.size)).sum

/-- SELL bucket of `actual_by_symbol[symbol]`. -/
def actualSellSum (ups : List TsUserPos) (sym : String) : ℚ :=
  ((ups.filter (fun p => p.symbol == sym && p.side == "SELL")).map
    (fun p => p.size)).sum

/-- Net actual position: `actual['BUY'] - actual['SELL']`. -/
def actualNet (ups : List TsUserPos) (sym : String) : ℚ :=
  actualBuySum ups sym - actualSellSum ups sym

/-- One row of the trade summary as assembled by the per-symbol loop body. -/
structure TsRow where
  calculated_side : String
  calculated_size : ℚ
  actual_side : String
  actual_size : ℚ
  difference_side : String
  difference_abs : ℚ
  difference_percent : ℚ
deriving Repr, DecidableEq

/-- Embeds the per-symbol loop body of `get_trade_summary`: sides from the
sign of each net, magnitudes as absolute values, and the percentage
difference `round(difference_abs / calc_size * 100, 2)` guarded by the
zero-calculated-size fallback (100 when only the actual side has size,
0 when both are zero). -/
def mkSummaryRow (calc_net actual_net : ℚ) : TsRow :=
  let difference_net := calc_net - actual_net
  let calc_size := |calc_net|
  let actual_size := |actual_net|
  let difference_abs := |difference_net|
  { calculated_side := if 0 ≤ calc_net then "BUY" else "SELL"
    calculated_size := calc_size
    actual_side := if 0 ≤ actual_net then "BUY" else "SELL"
    actual_size := actual_size
    difference_side := if 0 ≤ difference_net then "BUY" else "SELL"
    difference_abs := difference_abs
    difference_percent :=
      if 0 < calc_size then roundDecHE (difference_abs / calc_size * 100) 2
      else if 0 < actual_size then 100 else 0 }

/-- Summary row reported for one symbol. -/
def trade_summary_row (tps : List (TsTrader × List TsLeadPos))
    (ups : List TsUserPos) (sym : String) : TsRow :=
  mkSummaryRow (calcNet tps sym) (actualNet ups sym)

/-- Row-inclusion test of the summary loop. -/
def trade_summary_row_included (tps : List (TsTrader × List TsLeadPos))
    (ups : List TsUserPos) (sym : String) : Bool :=
  let row := trade_summary_row tps ups sym
  0 < row.calculated_size ∨ 0 < row.actual_size ∨ 0 < row.difference_abs

theorem sum_map_sub {α : Type} (l : List α) (f g : α → ℚ) :
    (l.map (fun x => f x - g x)).sum = (l.map f).sum - (l.map g).sum := by
  induction l with
  | nil => simp
  | cons a t ih =>
    simp only [List.map_cons, List.sum_cons, ih]
    ring

theorem signedContrib_eq (t : TsTrader) (p : TsLeadPos) :
    (if (calcFinal t p).1 == "BUY" then (calcFinal t p).2 else 0)
      - (if (calcFinal t p).1 == "SELL" then (calcFinal t p).2 else 0)
      = signedContrib t p := by
  unfold signedContrib
  by_cases h1 : (calcFinal t p).1 = "BUY"
  · have h2 : ¬ (calcFinal t p).1 = "SELL" := by
      rw [h1]; intro hcon; exact absurd hcon (by decide)
    simp [h1, h2]
  · by_cases h2 : (calcFinal t p).1 = "SELL"
    · simp [h1, h2]
    · simp [h1, h2]

theorem calcNet_eq_spec (tps : List (TsTrader × List TsLeadPos))
    (sym : String) : calcNet tps sym = calcNetSpec tps sym := by
  unfold calcNet calcBuySum calcSellSum calcNetSpec
  rw [← sum_map_sub]
  apply congrArg List.sum
  apply List.map_congr_left
  intro tp _
  rw [← sum_map_sub]
  apply congrArg List.sum
  apply List.map_congr_left
  intro p _
  exact signedContrib_eq tp.1 p

theorem roundDecHE_ofInt (k : ℤ) (n : ℕ) (q : ℚ) (h : q * 10 ^ n = (k : ℚ)) :
    roundDecHE q n = (k : ℚ) / 10 ^ n := by
  unfold roundDecHE
  rw [h, roundHalfEven_intCast]

/-- Tracked-trader input of the specification's worked example: one
non-reverse trader holding BUY 1.0 BTCUSDT at coefficient 0.01. -/
def c4Tps : List (TsTrader × List TsLeadPos) :=
  [({ reverse_trading := false, reverse_coefficient := 1 },
    [{ symbol := "BTCUSDT", side := "BUY", size := 1,
       copy_balance_coeff := 1/100 }])]

/-- Actual cached position of the worked example: BUY 0.03 BTCUSDT. -/
def c4Ups : List TsUserPos :=
  [{ symbol := "BTCUSDT", side := "BUY", size := 3/100 }]

/-- C4 (amended): the trade summary reports, per symbol, |net calculated|
and |net actual| with BUY/SELL from the sign, the net calculated position
agreeing with the spec's signed sum of position size times coefficient, and
a percentage difference equal to |difference| / |calculated| * 100 rounded
to two decimal places (ties to even) when the calculated size is non-zero,
100 when only the actual size is non-zero, and 0 when both are zero; the
worked example (BUY 1.0 at coefficient 0.01 against actual BUY 0.03) gives
calculated BUY 0.01, actual BUY 0.03, difference SELL 0.02, percentage
200.0. -/
theorem C4_trade_summary (tps : List (TsTrader × List TsLeadPos))
    (ups : List TsUserPos) (sym : String) :
    calcNet tps sym = calcNetSpec tps sym
    ∧ (trade_summary_row tps ups sym).calculated_size = |calcNet tps sym|
    ∧ (trade_summary_row tps ups sym).actual_size = |actualNet ups sym|
    ∧ (trade_summary_row tps ups sym).difference_abs
        = |calcNet tps sym - actualNet ups sym|
    ∧ (trade_summary_row tps ups sym).calculated_side
        = (if 0 ≤ calcNet tps sym then "BUY" else "SELL")
    ∧ (calcNet tps sym ≠ 0 →
        (trade_summary_row tps ups sym).difference_percent
          = roundDecHE
              (|calcNet tps sym - actualNet ups sym|
                / |calcNet tps sym| * 100) 2)
    ∧ (calcNet tps sym = 0 → actualNet ups sym ≠ 0 →
        (trade_summary_row tps ups sym).difference_percent = 100)
    ∧ (calcNet tps sym = 0 → actualNet ups sym = 0 →
        (trade_summary_row tps ups sym).difference_percent = 0)
    ∧ (trade_summary_row c4Tps c4Ups "BTCUSDT").calculated_side = "BUY"
    ∧ (trade_summary_row c4Tps c4Ups "BTCUSDT").calculated_size = 1/100
    ∧ (trade_summary_row c4Tps c4Ups "BTCUSDT").actual_side = "BUY"
    ∧ (trade_summary_row c4Tps c4Ups "BTCUSDT").actual_size = 3/100
    ∧ (trade_summary_row c4Tps c4Ups "BTCUSDT").difference_side = "SELL"
    ∧ (trade_summary_row c4Tps c4Ups "BTCUSDT").difference_abs = 1/50
    ∧ (trade_summary_row c4Tps c4Ups "BTCUSDT").difference_percent = 200 := by
  have hBS : ¬ ("BUY" : String) = "SELL" := by decide
  have hcalc : calcNet c4Tps "BTCUSDT" = 1/100 := by
    norm_num [calcNet, calcBuySum, calcSellSum, calcFinal, c4Tps, hBS]
  have hact : actualNet c4Ups "BTCUSDT" = 3/100 := by
    simp [actualNet, actualBuySum, actualSellSum, c4Ups]
  have hrow : trade_summary_row c4Tps c4Ups "BTCUSDT"
      = mkSummaryRow (1/100) (3/100) := by
    rw [trade_summary_row, hcalc, hact]
  have hpct : roundDecHE (|(1:ℚ)/100 - 3/100| / |(1:ℚ)/100| * 100) 2
      = 200 := by
    rw [show (|(1:ℚ)/100 - 3/100| / |(1:ℚ)/100| * 100) = 200 by
      rw [abs_of_nonpos (by norm_num), abs_of_pos (by norm_num)]
      norm_num]
    rw [roundDecHE_ofInt 20000 2 200 (by norm_num)]
    norm_num
  refine ⟨calcNet_eq_spec tps sym, rfl, rfl, rfl, rfl, ?_, ?_, ?_,
    ?_, ?_, ?_, ?_, ?_, ?_, ?_⟩
  · intro hne
    have hpos : 0 < |calcNet tps sym| := abs_pos.mpr hne
    simp only [trade_summary_row, mkSummaryRow, if_pos hpos]
  · intro hc ha
    have hpos : ¬ 0 < |calcNet tps sym| := by simp [hc]
    have hpos2 : 0 < |actualNet ups sym| := abs_pos.mpr ha
    simp only [trade_summary_row, mkSummaryRow, if_neg hpos, if_pos hpos2]
  · intro hc ha
    have hpos : ¬ 0 < |calcNet tps sym| := by simp [hc]
    have hpos2 : ¬ 0 < |actualNet ups sym| := by simp [ha]
    simp only [trade_summary_row, mkSummaryRow, if_neg hpos, if_neg hpos2]
  · rw [hrow]
    norm_num [mkSummaryRow]
  · rw [hrow]
    norm_num [mkSummaryRow]
  · rw [hrow]
    norm_num [mkSummaryRow]
  · rw [hrow]
    norm_num [mkSummaryRow]
  · rw [hrow]
    norm_num [mkSummaryRow]
  · rw [hrow]
    norm_num [mkSummaryRow]
  · rw [hrow]
    have h1 : (0:ℚ) < |(1:ℚ)/100| := by norm_num
    simp only [mkSummaryRow, if_pos h1]
    rw [show |(1:ℚ)/100 - 3/100| / |(1:ℚ)/100| * 100
        = |(1:ℚ)/100 - 3/100| / |(1:ℚ)/100| * 100 from rfl]
    exact hpct

/-- Tracked-trader input of the C4 counterexample: calculated net 3. -/
def c4xTps : List (TsTrader × List TsLeadPos) :=
  [({ reverse_trading := false, reverse_coefficient := 1 },
    [{ symbol := "XUSDT", side := "BUY", size := 3,
       copy_balance_coeff := 1 }])]

/-- Actual position of the C4 counterexample: net 2. -/
def c4xUps : List TsUserPos :=
  [{ symbol := "XUSDT", side := "BUY", size := 2 }]

theorem C4_trade_summary_counterexample :
    calcNet c4xTps "XUSDT" = 3
    ∧ actualNet c4xUps "XUSDT" = 2
    ∧ (trade_summary_row c4xTps c4xUps "XUSDT").difference_percent
        = 3333/100
    ∧ |calcNet c4xTps "XUSDT" - actualNet c4xUps "XUSDT"|
        / |calcNet c4xTps "XUSDT"| * 100 = 100/3
    ∧ (3333/100 : ℚ) ≠ 100/3 := by
  have hBS : ¬ ("BUY" : String) = "SELL" := by decide
  have hcalc : calcNet c4xTps "XUSDT" = 3 := by
    norm_num [calcNet, calcBuySum, calcSellSum, calcFinal, c4xTps, hBS]
  have hb2 : (("BUY" : String) == "SELL") = false := by decide
  have hact : actualNet c4xUps "XUSDT" = 2 := by
    norm_num [actualNet, actualBuySum, actualSellSum, c4xUps, hb2]
  have hfl : ⌊(10000:ℚ)/3⌋ = 3333 := floorQ_eq 3333 _ (by norm_num) (by norm_num)
  have hre : roundHalfEven ((10000:ℚ)/3) = 3333 := by
    simp only [roundHalfEven, hfl]
    norm_num
  have hpct : roundDecHE ((100:ℚ)/3) 2 = 3333/100 := by
    unfold roundDecHE
    rw [show ((100:ℚ)/3) * 10 ^ 2 = (10000:ℚ)/3 by norm_num, hre]
    norm_num
  refine ⟨hcalc, hact, ?_, ?_, by norm_num⟩
  · rw [trade_summary_row, hcalc, hact]
    have h1 : (0:ℚ) < |(3:ℚ)| := by norm_num
    simp only [mkSummaryRow, if_pos h1]
    rw [show |(3:ℚ) - 2| / |(3:ℚ)| * 100 = (100:ℚ)/3 by
      rw [abs_of_pos (by norm_num), abs_of_pos (by norm_num)]
      norm_num]
    exact hpct
  · rw [hcalc, hact]
    rw [abs_of_pos (by norm_num), abs_of_pos (by norm_num)]
    norm_num

theorem C4_trade_summary_witness :
    (trade_summary_row c4Tps c4Ups "BTCUSDT").difference_percent
      = roundDecHE
          (|calcNet c4Tps "BTCUSDT" - actualNet c4Ups "BTCUSDT"|
            / |calcNet c4Tps "BTCUSDT"| * 100) 2
    ∧ (trade_summary_row c4Tps c4Ups "BTCUSDT").difference_percent = 200 := by
  have hBS : ¬ ("BUY" : String) = "SELL" := by decide
  have h := C4_trade_summary c4Tps c4Ups "BTCUSDT"
  have hne : calcNet c4Tps "BTCUSDT" ≠ 0 := by
    rw [show calcNet c4Tps "BTCUSDT" = 1/100 from by
      norm_num [calcNet, calcBuySum, calcSellSum, calcFinal, c4Tps, hBS]]
    norm_num
  exact ⟨h.2.2.2.2.2.1 hne,
    h.2.2.2.2.2.2.2.2.2.2.2.2.2.2⟩

/-! ## YAML configuration loader

Model of `src/utils/yaml_loader.py` (`expand_env_vars`,
`load_yaml_with_env`).  The regex pattern is
`\$([A-Za-z_][A-Za-z0-9_]*)`; `re.sub` scans left to right, does not
rescan replacement text, and the replacement callback raises ValueError on
an unset variable.  YAML documents are the usual tree of strings,
non-string scalars, mappings and sequences; file access and the YAML
parser itself are third-party and enter the model as the `pathExists` and
`parsed` parameters of `load_yaml_with_env`.
-/

/-- First-character class `[A-Za-z_]` of the reference pattern. -/
def isVarStart (c : Char) : Bool :=
  (('A' ≤ c && c ≤ 'Z') || ('a' ≤ c && c ≤ 'z') || c = '_')

/-- Continuation class `[A-Za-z0-9_]` of the reference pattern. -/
def isVarChar (c : Char) : Bool :=
  isVarStart c || ('0' ≤ c && c ≤ '9')

/-- Longest match of `[A-Za-z_][A-Za-z0-9_]*` at the head of the input,
returned with the unconsumed remainder (empty match when the head is not a
valid first character). -/
def takeVar : List Char → List Char × List Char
  | [] => ([], [])
  | c :: rest =>
    if isVarStart c then (c :: rest.takeWhile isVarChar, rest.dropWhile isVarChar)
    else ([], c :: rest)

theorem dropWhile_length_le (p : Char → Bool) (l : List Char) :
    (l.dropWhile p).length ≤ l.length := by
  induction l with
  | nil => simp
  | cons a t ih =>
    rw [List.dropWhile_cons]
    by_cases h : p a = true
    · simp only [if_pos h]
      exact le_trans ih (by simp)
    · simp [h]

theorem takeVar_snd_le (l : List Char) : (takeVar l).2.length ≤ l.length := by
  cases l with
  | nil => simp [takeVar]
  | cons c rest =>
    by_cases h : isVarStart c = true
    · simp only [takeVar, if_pos h]
      calc (rest.dropWhile isVarChar).length ≤ rest.length :=
            dropWhile_length_le _ _
        _ ≤ (c :: rest).length := by simp
    · simp [takeVar, h]

theorem takeVar_snd_le2 (l v r : List Char) (h : takeVar l = (v, r)) :
    r.length ≤ l.length := by
  have h2 := takeVar_snd_le l
  rw [h] at h2
  exact h2

/-- Embeds the `re.sub` call of `expand_env_vars` on one string: scan for
`$`-references, replace each with the environment value, and fail with the
variable name (the ValueError) on the first unset one.  A `$` not followed
by a valid identifier start is not a match and is kept verbatim. -/
def expandChars (env : String → Option String) : List Char → Except String (List Char)
  | [] => .ok []
  | c :: tl =>
    if c = '$' then
      match h : takeVar tl with
      | ([], _) =>
        match expandChars env tl with
        | .error w => .error w
        | .ok r => .ok (c :: r)
      | (v :: vs, rest2) =>
        match env (String.mk (v :: vs)) with
        | none => .error (String.mk (v :: vs))
        | some val =>
          match expandChars env rest2 with
          | .error w => .error w
          | .ok r => .ok (val.toList ++ r)
    else
      match expandChars env tl with
      | .error w => .error w
      | .ok r => .ok (c :: r)
termination_by l => l.length
decreasing_by
  · simp
  · have h4 := takeVar_snd_le2 _ _ _ h
    simp
    omega
  · simp

/-- Identifiers matched by the same scan, in order: the references a
string value makes, independent of the environment. -/
def listRefs : List Char → List String
  | [] => []
  | c :: tl =>
    if c = '$' then
      match h : takeVar tl with
      | ([], _) => listRefs tl
      | (v :: vs, rest2) => String.mk (v :: vs) :: listRefs rest2
    else listRefs tl
termination_by l => l.length
decreasing_by
  · simp
  · have h4 := takeVar_snd_le2 _ _ _ h
    simp
    omega
  · simp

theorem listRefs_nil : listRefs [] = [] := by simp [listRefs]

theorem listRefs_nondollar (c : Char) (rest : List Char) (hc : ¬ c = '$') :
    listRefs (c :: rest) = listRefs rest := by
  rw [listRefs, if_neg hc]

theorem listRefs_dollar_none (rest rest2 : List Char)
    (htv : takeVar rest = ([], rest2)) :
    listRefs ('$' :: rest) = listRefs rest := by
  rw [listRefs, if_pos rfl]
  split
  · rfl
  · rename_i v vs r2 heq
    rw [htv] at heq
    cases heq

theorem listRefs_dollar_var (rest : List Char) (v : Char) (vs rest2 : List Char)
    (htv : takeVar rest = (v :: vs, rest2)) :
    listRefs ('$' :: rest) = String.mk (v :: vs) :: listRefs rest2 := by
  rw [listRefs, if_pos rfl]
  split
  · rename_i r2 heq
    rw [htv] at heq
    cases heq
  · rename_i a as r2 heq
    rw [htv] at heq
    cases heq
    rfl

theorem expandChars_nondollar (env : String → Option String) (c : Char)
    (rest : List Char) (hc : ¬ c = '$') :
    expandChars env (c :: rest)
      = match expandChars env rest with
        | .error w => .error w
        | .ok r => .ok (c :: r) := by
  rw [expandChars, if_neg hc]

theorem expandChars_dollar_none (env : String → Option String)
    (rest rest2 : List Char) (htv : takeVar rest = ([], rest2)) :
    expandChars env ('$' :: rest)
      = match expandChars env rest with
        | .error w => .error w
        | .ok r => .ok ('$' :: r) := by
  rw [expandChars, if_pos rfl]
  split
  · rfl
  · rename_i a as r2 heq
    rw [htv] at heq
    cases heq

theorem expandChars_dollar_var (env : String → Option String)
    (rest : List Char) (v : Char) (vs rest2 : List Char)
    (htv : takeVar rest = (v :: vs, rest2)) :
    expandChars env ('$' :: rest)
      = match env (String.mk (v :: vs)) with
        | none => .error (String.mk (v :: vs))
        | some val =>
          match expandChars env rest2 with
          | .error w => .error w
          | .ok r => .ok (val.toList ++ r) := by
  rw [expandChars, if_pos rfl]
  split
  · rename_i r2 heq
    rw [htv] at heq
    cases heq
  · rename_i a as r2 heq
    rw [htv] at heq
    cases heq
    rfl

theorem refs_unset_error (env : String → Option String) (V : String)
    (henv : env V = none) :
    ∀ n (cs : List Char), cs.length ≤ n → V ∈ listRefs cs →
      ∃ w, expandChars env cs = .error w := by
  intro n
  induction n with
  | zero =>
    intro cs hlen hmem
    have hnil : cs = [] := List.eq_nil_of_length_eq_zero (Nat.le_zero.mp hlen)
    subst hnil
    rw [listRefs_nil] at hmem
    cases hmem
  | succ n ih =>
    intro cs hlen hmem
    cases cs with
    | nil =>
      rw [listRefs_nil] at hmem
      cases hmem
    | cons c rest =>
      by_cases hc : c = '$'
      · subst hc
        rcases htv : takeVar rest with ⟨v, rest2⟩
        cases v with
        | nil =>
          rw [listRefs_dollar_none rest rest2 htv] at hmem
          rcases ih rest (by simpa using hlen) hmem with ⟨w, hw⟩
          rw [expandChars_dollar_none env rest rest2 htv, hw]
          exact ⟨w, rfl⟩
        | cons a as =>
          rw [listRefs_dollar_var rest a as rest2 htv] at hmem
          rw [expandChars_dollar_var env rest a as rest2 htv]
          rcases List.mem_cons.mp hmem with heq | hmem2
          · subst heq
            rw [henv]
            exact ⟨String.mk (a :: as), rfl⟩
          · have hr2 : rest2.length ≤ n := by
              have h3 := takeVar_snd_le rest
              rw [htv] at h3
              simp at h3 hlen
              omega
            rcases ih rest2 hr2 hmem2 with ⟨w, hw⟩
            cases henval : env (String.mk (a :: as)) with
            | none => exact ⟨String.mk (a :: as), rfl⟩
            | some val =>
              rw [hw]
              exact ⟨w, rfl⟩
      · rw [listRefs_nondollar c rest hc] at hmem
        rcases ih rest (by simpa using hlen) hmem with ⟨w, hw⟩
        rw [expandChars_nondollar env c rest hc, hw]
        exact ⟨w, rfl⟩

/-! Parsed YAML documents: strings, non-string scalars, mappings and
sequences (mutual with their spines to keep recursion structural). -/

mutual
inductive Yaml where
  | s (v : String)
  | num (n : Int)
  | boolv (b : Bool)
  | nullv
  | map (f : YFields)
  | arr (e : YItems)
deriving Repr, DecidableEq
inductive YFields where
  | nil
  | cons (k : String) (v : Yaml) (rest : YFields)
deriving Repr, DecidableEq
inductive YItems where
  | nil
  | cons (v : Yaml) (rest : YItems)
deriving Repr, DecidableEq
end

/-! Embeds `expand_env_vars`: strings are scanned and substituted,
mappings and sequences are traversed recursively, every other scalar is
returned unchanged. -/

mutual
def expandY (env : String → Option String) : Yaml → Except String Yaml
  | .s v =>
    match expandChars env v.toList with
    | .error w => .error w
    | .ok r => .ok (.s (String.mk r))
  | .num n => .ok (.num n)
  | .boolv b => .ok (.boolv b)
  | .nullv => .ok .nullv
  | .map f =>
    match expandF env f with
    | .error w => .error w
    | .ok f2 => .ok (.map f2)
  | .arr e =>
    match expandI env e with
    | .error w => .error w
    | .ok e2 => .ok (.arr e2)
def expandF (env : String → Option String) : YFields → Except String YFields
  | .nil => .ok .nil
  | .cons k v rest =>
    match expandY env v with
    | .error w => .error w
    | .ok v2 =>
      match expandF env rest with
      | .error w => .error w
      | .ok r2 => .ok (.cons k v2 r2)
def expandI (env : String → Option String) : YItems → Except String YItems
  | .nil => .ok .nil
  | .cons v rest =>
    match expandY env v with
    | .error w => .error w
    | .ok v2 =>
      match expandI env rest with
      | .error w => .error w
      | .ok r2 => .ok (.cons v2 r2)
end

/-- Membership of a string scalar anywhere in a document (through
mappings and sequences). -/
inductive HasStr : Yaml → String → Prop where
  | here (v : String) : HasStr (.s v) v
  | mapHead (k : String) (y : Yaml) (f : YFields) (v : String) :
      HasStr y v → HasStr (.map (.cons k y f)) v
  | mapTail (k : String) (y : Yaml) (f : YFields) (v : String) :
      HasStr (.map f) v → HasStr (.map (.cons k y f)) v
  | arrHead (y : Yaml) (e : YItems) (v : String) :
      HasStr y v → HasStr (.arr (.cons y e)) v
  | arrTail (y : Yaml) (e : YItems) (v : String) :
      HasStr (.arr e) v → HasStr (.arr (.cons y e)) v

theorem hasStr_expand_error (env : String → Option String) (y : Yaml)
    (s : String) (h : HasStr y s) :
    (∃ w, expandChars env s.toList = .error w) →
      ∃ w, expandY env y = .error w := by
  induction h with
  | here v =>
    intro herr
    rcases herr with ⟨w, hw⟩
    refine ⟨w, ?_⟩
    simp only [expandY, String.toList] at hw ⊢
    rw [hw]
  | mapHead k y f v hsub ih =>
    intro herr
    rcases ih herr with ⟨w, hw⟩
    exact ⟨w, by simp [expandY, expandF, hw]⟩
  | mapTail k y f v hsub ih =>
    intro herr
    rcases ih herr with ⟨w, hw⟩
    have hf : expandF env f = .error w := by
      cases hf2 : expandF env f with
      | error w2 =>
        rw [expandY, hf2] at hw
        cases hw
        rfl
      | ok f2 =>
        rw [expandY, hf2] at hw
        cases hw
    cases hy : expandY env y with
    | error w3 => exact ⟨w3, by simp [expandY, expandF, hy]⟩
    | ok y2 => exact ⟨w, by simp [expandY, expandF, hy, hf]⟩
  | arrHead y e v hsub ih =>
    intro herr
    rcases ih herr with ⟨w, hw⟩
    exact ⟨w, by simp [expandY, expandI, hw]⟩
  | arrTail y e v hsub ih =>
    intro herr
    rcases ih herr with ⟨w, hw⟩
    have he : expandI env e = .error w := by
      cases he2 : expandI env e with
      | error w2 =>
        rw [expandY, he2] at hw
        cases hw
        rfl
      | ok e2 =>
        rw [expandY, he2] at hw
        cases hw
    cases hy : expandY env y with
    | error w3 => exact ⟨w3, by simp [expandY, expandI, hy]⟩
    | ok y2 => exact ⟨w, by simp [expandY, expandI, hy, he]⟩

/-- Error kinds of `load_yaml_with_env`: FileNotFoundError,
yaml.YAMLError (InvalidInput), ValueError from expansion (MissingData). -/
inductive LoadErr where
  | fileNotFound
  | invalidInput
  | missingData
deriving Repr, DecidableEq

/-- Embeds `load_yaml_with_env`: missing file fails FileNotFound, a
parser failure fails InvalidInput, an empty document falls back to the
empty mapping (`or {}`), and a ValueError raised during expansion
propagates as the MissingData failure. -/
def load_yaml_with_env (pathExists : Bool)
    (parsed : Except String (Option Yaml)) (env : String → Option String) :
    Except LoadErr Yaml :=
  if ¬ pathExists then .error .fileNotFound
  else
    match parsed with
    | .error _ => .error .invalidInput
    | .ok d =>
      match expandY env (d.getD (Yaml.map .nil)) with
      | .error _ => .error .missingData
      | .ok y => .ok y

/-- C5: when an existing, successfully parsed YAML document contains a
string value referencing an unset environment variable, the load fails
with the MissingData-type error instead of substituting an empty string,
and non-string scalars pass through the expansion unchanged. -/
theorem C5_yaml_missing_env (parsed : Except String (Option Yaml))
    (env : String → Option String) (doc : Yaml) (s V : String)
    (hp : parsed = .ok (some doc)) (hs : HasStr doc s)
    (hV : V ∈ listRefs s.toList) (henv : env V = none) :
    load_yaml_with_env true parsed env = .error .missingData
    ∧ (∀ n : Int, expandY env (.num n) = .ok (.num n))
    ∧ (∀ b : Bool, expandY env (.boolv b) = .ok (.boolv b))
    ∧ expandY env .nullv = .ok .nullv := by
  have herr := refs_unset_error env V henv s.toList.length s.toList
    le_rfl hV
  have hyerr := hasStr_expand_error env doc s hs herr
  rcases hyerr with ⟨w, hw⟩
  subst hp
  refine ⟨?_, fun n => by simp [expandY], fun b => by simp [expandY],
    by simp [expandY]⟩
  simp [load_yaml_with_env, hw]

/-- Document of the C5 witness: one mapping entry whose value references
an unset variable. -/
def c5Doc : Yaml :=
  Yaml.map (.cons "api_key" (.s "$MISSING_VAR") .nil)

theorem C5_yaml_missing_env_witness :
    load_yaml_with_env true (.ok (some c5Doc)) (fun _ => none)
      = .error .missingData
    ∧ expandY (fun _ => none) (.num 42) = .ok (.num 42) := by
  have h := C5_yaml_missing_env (.ok (some c5Doc)) (fun _ => none) c5Doc
    "$MISSING_VAR" "MISSING_VAR" rfl
    (HasStr.mapHead _ _ _ _ (HasStr.here _))
    (by simp [listRefs, takeVar, isVarStart, isVarChar]) rfl
  exact ⟨h.1, h.2.1 42⟩
